import Mathlib

/-!
Verification of the SystemC-derived simulation kernel glue: the `sc_spawn`
process factory (sc_spawn.h) and the BSM value-change tracing subsystem
(sc_bsm_trace.h).  The C++ sources are shallowly embedded: template classes
become parametrised structures, member functions become Lean functions that
return the updated object state together with any emitted output, and machine
integers become `Nat`/`Int` values.
-/

namespace SystemC

/-! ## sc_spawn.h : process spawning support -/

/-- Spawn options; only the `is_method` capability is consulted by `sc_spawn`
itself (`stack_size` and the reset/initialize flags are stored for the
created process and do not influence the thread/method selection). -/
structure sc_spawn_options where
  is_method : Bool
deriving DecidableEq

/-- The two process kinds a spawn can register with the simulation context:
`create_thread_process` vs `create_method_process`. -/
inductive ProcKind where
  | thread
  | method
deriving DecidableEq

/-- `sc_spawn_object<T>`: holds a copy of the supplied callable; its
`semantics()` performs a `()` operation on `m_object`.  The callable with no
arguments and no result is modelled as a transformer of the program state
`σ`. -/
structure sc_spawn_object (σ : Type) where
  m_object : σ → σ

def sc_spawn_object.semantics {σ : Type} (host : sc_spawn_object σ) (s : σ) : σ :=
  host.m_object s

/-- The observable outcome of `sc_spawn`: which process-creation routine was
invoked, and the process host whose `semantics` the created process runs. -/
structure SpawnResult (σ : Type) where
  kind : ProcKind
  host : sc_spawn_object σ

/-- `sc_spawn(object, name_p, opt_p)` (no-result overload): builds an
`sc_spawn_object` around the callable and registers it as a thread process
when `!opt_p || !opt_p->is_method()`, otherwise as a method process. -/
def sc_spawn {σ : Type} (object : σ → σ) (opt_p : Option sc_spawn_options) :
    SpawnResult σ :=
  let spawn_p : sc_spawn_object σ := ⟨object⟩
  if (match opt_p with
      | Option.none => true
      | Option.some o => !o.is_method) then
    ⟨ProcKind.thread, spawn_p⟩
  else
    ⟨ProcKind.method, spawn_p⟩

/-- `sc_spawn_object_v<T>`: holds a callable whose `()` operator returns a
value of type `R`; `semantics()` performs `*m_result_p = m_object()`. -/
structure sc_spawn_object_v (σ R : Type) where
  m_object : σ → σ × R

/-- `semantics()` of the result-slot host: evaluates the callable on the
program state and overwrites the result slot with the returned value (the
previous slot content is discarded). -/
def sc_spawn_object_v.semantics {σ R : Type} (host : sc_spawn_object_v σ R)
    (s : σ) (result_slot : R) : σ × R :=
  let _ := result_slot
  host.m_object s

structure SpawnResultV (σ R : Type) where
  kind : ProcKind
  host : sc_spawn_object_v σ R

/-- `sc_spawn(r_p, object, name_p, opt_p)` (result-slot overload): same
thread/method selection as the no-result overload, with an
`sc_spawn_object_v` host. -/
def sc_spawn_v {σ R : Type} (object : σ → σ × R)
    (opt_p : Option sc_spawn_options) : SpawnResultV σ R :=
  let spawn_p : sc_spawn_object_v σ R := ⟨object⟩
  if (match opt_p with
      | Option.none => true
      | Option.some o => !o.is_method) then
    ⟨ProcKind.thread, spawn_p⟩
  else
    ⟨ProcKind.method, spawn_p⟩

/-- Failure taxonomy of the spawn layer, from the specification. -/
inductive SpawnFailure where
  | InvalidContext
  | DuplicateName
deriving DecidableEq

/-- The ambient simulation context as far as spawning is concerned: whether a
scheduler context is active and which names are already taken in the
enclosing hierarchical scope. -/
structure SimContext where
  active : Bool
  usedNames : List String

/-- Modelled from the spec: `sc_get_curr_simcontext` and
`sc_simcontext::create_thread_process` / `create_method_process` are not among
the source files, so the error behaviour of spawning is taken from the
specification: it fails with `InvalidContext` when called outside an active
scheduler context, with `DuplicateName` when the supplied name collides within
the same hierarchical scope, and otherwise returns a process handle. -/
def sc_spawn_checked {σ : Type} (ctx : SimContext) (name : String)
    (object : σ → σ) (opt_p : Option sc_spawn_options) :
    Except SpawnFailure (SpawnResult σ) :=
  if !ctx.active then
    Except.error SpawnFailure.InvalidContext
  else if name ∈ ctx.usedNames then
    Except.error SpawnFailure.DuplicateName
  else
    Except.ok (sc_spawn object opt_p)

/-! ## Simulation time (sc_bsm_trace.h, bsm_trace_file::get_time_stamp) -/

/-- `bsm_trace_file::get_time_stamp`: compares the current `(high, low)`
pair of 64-bit time-unit counts against the previously recorded pair. -/
def get_time_stamp (previous_time_units_high previous_time_units_low
    now_units_high now_units_low : Nat) : Bool :=
  (decide (now_units_low > previous_time_units_low)
      && (now_units_high == previous_time_units_high))
    || decide (now_units_high > previous_time_units_high)

/-- Strict lexicographic order on `(high, low)` pairs, high compared first. -/
def lexLt (a b : Nat × Nat) : Prop :=
  a.1 < b.1 ∨ (a.1 = b.1 ∧ a.2 < b.2)

/-- Reflexive lexicographic order on `(high, low)` pairs. -/
def lexLe (a b : Nat × Nat) : Prop :=
  a = b ∨ lexLt a b

instance (a b : Nat × Nat) : Decidable (lexLt a b) := by
  unfold lexLt; infer_instance

instance (a b : Nat × Nat) : Decidable (lexLe a b) := by
  unfold lexLe; infer_instance

/-- Modelled from the spec: the scheduler phase engine (`sc_simcontext`) is
not among the source files.  Per the specification, `SimulationTime` is an
ordered pair `(high, low)` of 64-bit unit counts (here carried as the single
count `high * 2^64 + low`), timed notifications are keyed by the absolute
simulation time `now + delay` of a non-negative simulated-time delay, and
only the time-advance phase changes the current time, advancing it to the
minimum pending timestamp. -/
structure SchedulerState where
  timeVal : Nat
  pending : List Nat

/-- The scheduler operations that can touch simulation time: the zero-time
phases (evaluate/update/delta-notify) leave it unchanged, `schedule` queues a
timed notification `delay` units in the future, and `timeAdvance` pops the
minimum pending timestamp. -/
inductive SchedulerOp where
  | deltaPhase
  | schedule (delay : Nat)
  | timeAdvance

def schedStep (s : SchedulerState) (op : SchedulerOp) : SchedulerState :=
  match op with
  | SchedulerOp.deltaPhase => s
  | SchedulerOp.schedule d => { s with pending := (s.timeVal + d) :: s.pending }
  | SchedulerOp.timeAdvance =>
    match s.pending with
    | [] => s
    | t :: ts =>
      let m := (t :: ts).foldl Nat.min t
      { timeVal := m, pending := (t :: ts).filter (fun x => decide (x ≠ m)) }

/-- A run of the scheduler is a fold of `schedStep` over an operation list. -/
def schedRun (s : SchedulerState) (ops : List SchedulerOp) : SchedulerState :=
  List.foldl schedStep s ops

/-- Split a unit count back into the `(high, low)` pair of 64-bit counts. -/
def timePair (s : SchedulerState) : Nat × Nat :=
  (s.timeVal / 2 ^ 64, s.timeVal % 2 ^ 64)

/-! ## Trace objects (sc_bsm_trace.h) -/

/-- `bsm_trace` trace-type values: an ordinary trace vs a valid-signal trace
whose follower is written unconditionally. -/
def BSM_TRACE_ORIG : Nat := 0
def BSM_TRACE_VAL : Nat := 1

/-- `bsm_trace` trigger-type values. -/
def BSM_TRIGGER_VAL_POS : Nat := 0
def BSM_TRIGGER_VAL_NEG : Nat := 1
def BSM_TRIGGER_VAL_BOTH : Nat := 2
def BSM_TRIGGER_VAL_NONE : Nat := 3

/-- `bsm_sc_event_trace`: traces an event through a reference to its 64-bit
trigger stamp.  `trigger_stamp` is the current value of the referenced
counter; `old_trigger_stamp` is the value recorded at construction or at the
last effective `write`. -/
structure bsm_sc_event_trace where
  trigger_stamp : Nat
  old_trigger_stamp : Nat
  bsm_name : String
  bsm_trace_type : Nat
deriving DecidableEq

/-- The `bsm_sc_event_trace` constructor: `old_trigger_stamp` starts out
equal to the referenced stamp, and the trace type is `BSM_TRACE_ORIG`. -/
def bsm_sc_event_trace.init (stamp : Nat) (name : String) : bsm_sc_event_trace :=
  ⟨stamp, stamp, name, BSM_TRACE_ORIG⟩

def bsm_sc_event_trace.changed (t : bsm_sc_event_trace) : Bool :=
  t.trigger_stamp != t.old_trigger_stamp

/-- `bsm_sc_event_trace::write(f)`: returns without output when nothing
changed; otherwise prints `1` followed by the short name and records the
current stamp.  The `FILE*` is modelled by a `Bool` saying whether a real
file is attached; output reaches the file only when it is. -/
def bsm_sc_event_trace.write (t : bsm_sc_event_trace) (f : Bool) :
    Option String × bsm_sc_event_trace :=
  if !t.changed then
    (Option.none, t)
  else
    ((if f then Option.some ("1" ++ t.bsm_name) else Option.none),
     { t with old_trigger_stamp := t.trigger_stamp })

/-- State common to the trace classes that define `changed()` through the
`TRACE_CHANGED_IMPLEMENT` macro (`bsm_bool_trace`, `bsm_signed_int_trace`,
`bsm_uint64_trace`, ...).  The traced value is carried as an integer; `object`
is the current value of the referenced variable and `old_value` the recorded
previous value. -/
structure bsm_value_trace where
  object : Int
  old_value : Int
  bsm_trigger_type : Nat
  bsm_trace_type : Nat
deriving DecidableEq

/-- The common shape of these classes' `write(f)`: print the current value
when a file is attached, then record `old_value = object`. -/
def bsm_value_trace.write (t : bsm_value_trace) (f : Bool) :
    Option Int × bsm_value_trace :=
  ((if f then Option.some t.object else Option.none),
   { t with old_value := t.object })

/-- `TRACE_CHANGED_IMPLEMENT()`: report a change only when the value differs
and the edge direction matches the trigger type; a differing value whose
direction does not match is consumed by a `write(NULL)`. -/
def bsm_value_trace.changed (t : bsm_value_trace) : Bool × bsm_value_trace :=
  if t.object ≠ t.old_value then
    if t.bsm_trigger_type = BSM_TRIGGER_VAL_BOTH
        ∨ (t.bsm_trigger_type = BSM_TRIGGER_VAL_POS ∧ t.object > t.old_value)
        ∨ (t.bsm_trigger_type = BSM_TRIGGER_VAL_NEG ∧ t.object < t.old_value) then
      (true, t)
    else
      (false, (t.write false).2)
  else
    (false, t)

/-- `bsm_T_trace<T>`: generic trace over a datatype compared with `==`;
its `changed()` is plain inequality and its `write` always records the
current value.  The traced datatype value is carried as an integer. -/
structure bsm_T_trace where
  object : Int
  old_value : Int
  bsm_trace_type : Nat
deriving DecidableEq

def bsm_T_trace.changed (t : bsm_T_trace) : Bool :=
  !(t.object == t.old_value)

def bsm_T_trace.write (t : bsm_T_trace) (f : Bool) :
    Option Int × bsm_T_trace :=
  ((if f then Option.some t.object else Option.none),
   { t with old_value := t.object })

/-- `bsm_interface_trace`: traces a channel through its `bsm_string()`
rendering; `objectValue` is the string the traced channel currently renders
to, `old_value` the recorded one. -/
structure bsm_interface_trace where
  objectValue : String
  old_value : String
  bsm_trigger_type : Nat
  bsm_trace_type : Nat

def bsm_interface_trace.write (t : bsm_interface_trace) (f : Bool) :
    Option String × bsm_interface_trace :=
  ((if f then Option.some t.objectValue else Option.none),
   { t with old_value := t.objectValue })

def bsm_interface_trace.changed (t : bsm_interface_trace) :
    Bool × bsm_interface_trace :=
  if t.objectValue ≠ t.old_value then
    if t.bsm_trigger_type = BSM_TRIGGER_VAL_BOTH
        ∨ (t.bsm_trigger_type = BSM_TRIGGER_VAL_POS ∧ t.objectValue > t.old_value)
        ∨ (t.bsm_trigger_type = BSM_TRIGGER_VAL_NEG ∧ t.objectValue < t.old_value) then
      (true, t)
    else
      (false, (t.write false).2)
  else
    (false, t)

/-! ## bsm_trace_file::cycle -/

/-- A registered trace as the `cycle` loop sees it through the `bsm_trace`
virtual interface (`changed()`, `write(FILE*)`, `get_trace_type()`). -/
inductive TraceObj where
  | valT (t : bsm_value_trace)
  | evT (t : bsm_sc_event_trace)
deriving DecidableEq

def TraceObj.changed : TraceObj → Bool × TraceObj
  | TraceObj.valT t => ((t.changed).1, TraceObj.valT (t.changed).2)
  | TraceObj.evT t => (t.changed, TraceObj.evT t)

def TraceObj.write : TraceObj → Bool → Option String × TraceObj
  | TraceObj.valT t, f => (((t.write f).1).map toString, TraceObj.valT (t.write f).2)
  | TraceObj.evT t, f => ((t.write f).1, TraceObj.evT (t.write f).2)

def TraceObj.get_trace_type : TraceObj → Nat
  | TraceObj.valT t => t.bsm_trace_type
  | TraceObj.evT t => t.bsm_trace_type

/-- Per-trace record of what one `cycle` invocation did to a registered
trace: its state afterwards, whether its value went to the trace file, how
many times the loop called its `changed()`, and what that call returned
(`none` when the loop never called it). -/
structure TStat where
  post : TraceObj
  wroteFile : Bool
  changedCalls : Nat
  changedResult : Option Bool
deriving DecidableEq

/-- The sampling loop of `bsm_trace_file::cycle`: walk the trace array; on a
reported change either discard the sample (`write(NULL)`) when BSM tracing is
disabled, write the trace itself when its trace type is `BSM_TRACE_ORIG`, or
— for a `BSM_TRACE_VAL` valid-signal trace — discard its own sample and write
the *next* trace unconditionally, skipping it in the iteration.  The
`assert(i < traces.size())` guarding that skip is modelled by returning
`none` when the valid signal has no follower. -/
def cycleTracesAux (enable : Bool) : Nat → List TraceObj → Option (List TStat)
  | _, [] => Option.some []
  | 0, _ :: _ => Option.none
  | Nat.succ fuel, t :: rest =>
    let c := t.changed
    if c.1 then
      if !enable then
        let w := c.2.write false
        (cycleTracesAux enable fuel rest).map
          (fun l => ⟨w.2, false, 1, Option.some true⟩ :: l)
      else if c.2.get_trace_type = BSM_TRACE_ORIG then
        let w := c.2.write true
        (cycleTracesAux enable fuel rest).map
          (fun l => ⟨w.2, true, 1, Option.some true⟩ :: l)
      else
        let w := c.2.write false
        match rest with
        | [] => Option.none
        | u :: rest2 =>
          let wu := u.write true
          (cycleTracesAux enable fuel rest2).map
            (fun l => ⟨w.2, false, 1, Option.some true⟩ ::
              ⟨wu.2, true, 0, Option.none⟩ :: l)
    else
      (cycleTracesAux enable fuel rest).map
        (fun l => ⟨c.2, false, 1, Option.some false⟩ :: l)

/-- The loop runs over the whole trace array; the index bound doubles as the
structural-recursion fuel (each iteration consumes at least one trace, so
the array length always suffices). -/
def cycleTraces (enable : Bool) (ts : List TraceObj) : Option (List TStat) :=
  cycleTracesAux enable ts.length ts

/-- `bsm_trace_file::cycle(this_is_a_delta_cycle)`: the early-return guards
(delta tracing disabled, pending initialization, reversed time at a delta
boundary, timed-notification boundary when delta tracing is on) are carried
as the booleans they test; `none` means the invocation returned without
sampling.  When sampling happens it is `cycleTraces` over the trace array. -/
def cycle (trace_delta_cycles this_is_a_delta_cycle needs_initialize
    time_advanced delta_count_zero enable : Bool)
    (traces : List TraceObj) : Option (List TStat) :=
  if !trace_delta_cycles && this_is_a_delta_cycle then Option.none
  else if needs_initialize then Option.none
  else if trace_delta_cycles && this_is_a_delta_cycle
      && delta_count_zero && !time_advanced then Option.none
  else if trace_delta_cycles && !this_is_a_delta_cycle then Option.none
  else cycleTraces enable traces

/-- A file write in a `cycle` invocation is justified when either the trace's
own `changed()` returned true in that invocation and it is an ordinary
trace, or the trace immediately follows a valid-signal trace (trace type
other than `BSM_TRACE_ORIG`) whose `changed()` returned true. -/
def writeJustified (prev : Option TStat) (s : TStat) : Prop :=
  s.wroteFile = true →
    (s.changedResult = Option.some true
        ∧ s.post.get_trace_type = BSM_TRACE_ORIG)
    ∨ (∃ p, prev = Option.some p ∧ p.changedResult = Option.some true
        ∧ p.post.get_trace_type ≠ BSM_TRACE_ORIG)

/-- Every file write in the stat list is justified in the sense of
`writeJustified`, threading each entry's predecessor. -/
def allWritesJustified : Option TStat → List TStat → Prop
  | _, [] => True
  | prev, s :: rest => writeJustified prev s ∧ allWritesJustified (Option.some s) rest

/-! ## bsm_trace::strip_leading_bits -/

/-- `bsm_trace::strip_leading_bits`: collapse a leading run of `0`, `x` or
`z`; a run of `0` immediately followed by `1` is removed entirely, any other
run is collapsed to a single character.  The null-terminated C string is a
`List Char` without interior nulls. -/
def strip_leading_bits (originalbuf : List Char) : List Char :=
  if originalbuf.length < 2
      ∨ (originalbuf.head? ≠ Option.some 'z'
          ∧ originalbuf.head? ≠ Option.some 'x'
          ∧ originalbuf.head? ≠ Option.some '0') then
    originalbuf
  else
    match originalbuf with
    | [] => originalbuf
    | first_char :: _ =>
      let position := originalbuf.dropWhile (fun ch => ch = first_char)
      if first_char = '0' ∧ position.head? = Option.some '1' then
        position
      else
        first_char :: position

/-! ## bsm_trace_file::obtain_name -/

/-- The 32-bit `unsigned` member `bsm_name_index` converted to a signed
32-bit `int`, as happens in `int result; result = bsm_name_index;`
(two's-complement wrap-around for values at or above `2^31`). -/
def toInt32 (n : Nat) : Int :=
  if n % 2 ^ 32 < 2 ^ 31 then ((n % 2 ^ 32 : Nat) : Int)
  else ((n % 2 ^ 32 : Nat) : Int) - 2 ^ 32

/-- `bsm_trace_file::obtain_name`: produce the next five-letter short name
and advance the 32-bit unsigned `bsm_name_index` (carried here as its value,
a natural number below `2^32`).  `char6` comes from `bsm_name_index % 26`
(unsigned arithmetic, since the `int` constant is converted to `unsigned`),
`char5`/`char4` from the `int result = bsm_name_index` division chain with
C truncated division and remainder (`Int.tdiv`/`Int.tmod`, which go negative
once the conversion wraps), and `char3`/`char2` from the chain restarted
with the unsigned division `bsm_name_index / 26`, whose value fits in
`int`.  Note that this restart makes the first two characters repeat the
second and third base-26 digits.  The increment wraps at `2^32`. -/
def obtain_name (bsm_name_index : Nat) : String × Nat :=
  let idx : Nat := bsm_name_index % 2 ^ 32
  let used_types_count : Int := 26
  let char6 : Int := ((idx % 26 : Nat) : Int)
  let result1 : Int := (toInt32 idx).tdiv used_types_count
  let char5 : Int := result1.tmod used_types_count
  let result2 : Int := result1.tdiv used_types_count
  let char4 : Int := result2.tmod used_types_count
  let result3 : Nat := idx / 26
  let char3 : Int := ((result3 % 26 : Nat) : Int)
  let result4 : Nat := result3 / 26
  let char2 : Int := ((result4 % 26 : Nat) : Int)
  (String.mk [Char.ofNat (97 + char2).toNat, Char.ofNat (97 + char3).toNat,
      Char.ofNat (97 + char4).toNat, Char.ofNat (97 + char5).toNat,
      Char.ofNat (97 + char6).toNat],
   (idx + 1) % 2 ^ 32)

/-! ## Theorems -/

/-- Claim C1: `sc_spawn(object, name_p, opt)` registers the callable as a
thread process when `opt` is null or `opt->is_method()` is false, and as a
method process when `opt->is_method()` is true; in every case the created
process's `semantics()` invokes the callable's `operator()`. -/
theorem sc_spawn_selects_kind_and_runs_callable {σ : Type} (object : σ → σ)
    (opt_p : Option sc_spawn_options) :
    ((opt_p = Option.none ∨ (∃ o, opt_p = Option.some o ∧ o.is_method = false)) →
      (sc_spawn object opt_p).kind = ProcKind.thread)
    ∧ ((∃ o, opt_p = Option.some o ∧ o.is_method = true) →
      (sc_spawn object opt_p).kind = ProcKind.method)
    ∧ (∀ s, ((sc_spawn object opt_p).host).semantics s = object s) := by
  refine ⟨fun h => ?_, fun h => ?_, fun s => ?_⟩
  · rcases h with h | ⟨o, rfl, ho⟩
    · subst h; rfl
    · simp [sc_spawn, ho]
  · rcases h with ⟨o, rfl, ho⟩
    simp [sc_spawn, ho]
  · cases opt_p with
    | none => rfl
    | some o =>
      by_cases ho : o.is_method <;>
        simp [sc_spawn, ho, sc_spawn_object.semantics]

/-- Witness for C1 at concrete inputs. -/
theorem sc_spawn_selects_kind_witness :
    (sc_spawn Nat.succ (Option.some ⟨true⟩)).kind = ProcKind.method
    ∧ (sc_spawn Nat.succ Option.none).kind = ProcKind.thread
    ∧ (sc_spawn Nat.succ Option.none).host.semantics 3 = 4 :=
  ⟨(sc_spawn_selects_kind_and_runs_callable Nat.succ (Option.some ⟨true⟩)).2.1
      ⟨⟨true⟩, rfl, rfl⟩,
   (sc_spawn_selects_kind_and_runs_callable Nat.succ Option.none).1 (Or.inl rfl),
   (sc_spawn_selects_kind_and_runs_callable Nat.succ Option.none).2.2 3⟩

/-- Claim C3: spawning fails with `InvalidContext` outside an active
scheduler context, with `DuplicateName` when the name collides within the
same hierarchical scope, and otherwise returns a process handle. -/
theorem sc_spawn_checked_errors {σ : Type} (ctx : SimContext) (name : String)
    (object : σ → σ) (opt_p : Option sc_spawn_options) :
    (ctx.active = false →
      sc_spawn_checked ctx name object opt_p
        = Except.error SpawnFailure.InvalidContext)
    ∧ (ctx.active = true → name ∈ ctx.usedNames →
      sc_spawn_checked ctx name object opt_p
        = Except.error SpawnFailure.DuplicateName)
    ∧ (ctx.active = true → name ∉ ctx.usedNames →
      sc_spawn_checked ctx name object opt_p
        = Except.ok (sc_spawn object opt_p)) := by
  refine ⟨fun h => ?_, fun h hm => ?_, fun h hm => ?_⟩
  · simp [sc_spawn_checked, h]
  · simp [sc_spawn_checked, h, hm]
  · simp [sc_spawn_checked, h, hm]

/-- Witness for C3 at concrete inputs. -/
theorem sc_spawn_checked_errors_witness :
    (sc_spawn_checked ⟨false, []⟩ "p1" (fun n : Nat => n) Option.none
      = Except.error SpawnFailure.InvalidContext)
    ∧ (sc_spawn_checked ⟨true, ["p1"]⟩ "p1" (fun n : Nat => n) Option.none
      = Except.error SpawnFailure.DuplicateName)
    ∧ (sc_spawn_checked ⟨true, ["p0"]⟩ "p1" (fun n : Nat => n) Option.none
      = Except.ok (sc_spawn (fun n : Nat => n) Option.none)) :=
  ⟨(sc_spawn_checked_errors ⟨false, []⟩ "p1" (fun n : Nat => n) Option.none).1 rfl,
   (sc_spawn_checked_errors ⟨true, ["p1"]⟩ "p1" (fun n : Nat => n) Option.none).2.1
      rfl (by simp),
   (sc_spawn_checked_errors ⟨true, ["p0"]⟩ "p1" (fun n : Nat => n) Option.none).2.2
      rfl (by simp)⟩

/-- Claim C4: the result-slot overload creates a process whose `semantics()`
evaluates the callable and stores the returned value in the result slot on
every execution, with the thread/method selection made the same way as in
the no-result overload. -/
theorem sc_spawn_v_stores_result_and_matches_selection {σ R : Type}
    (object : σ → σ × R) (opt_p : Option sc_spawn_options) :
    (∀ s r_old,
      (((sc_spawn_v object opt_p).host).semantics s r_old).2 = (object s).2
      ∧ (((sc_spawn_v object opt_p).host).semantics s r_old).1 = (object s).1)
    ∧ (sc_spawn_v object opt_p).kind
        = (sc_spawn (fun s : σ => s) opt_p).kind := by
  constructor
  · intro s r_old
    cases opt_p with
    | none => exact ⟨rfl, rfl⟩
    | some o =>
      by_cases ho : o.is_method <;>
        simp [sc_spawn_v, ho, sc_spawn_object_v.semantics]
  · cases opt_p with
    | none => rfl
    | some o =>
      by_cases ho : o.is_method <;> simp [sc_spawn_v, sc_spawn, ho]

lemma foldl_min_ge (c : Nat) :
    ∀ (xs : List Nat) (init : Nat), c ≤ init → (∀ x ∈ xs, c ≤ x) →
      c ≤ xs.foldl Nat.min init := by
  intro xs
  induction xs with
  | nil => intro init h _; exact h
  | cons a l ih =>
    intro init h hall
    exact ih (Nat.min init a)
      (le_min h (hall a (List.mem_cons_self a l)))
      (fun x hx => hall x (List.mem_cons_of_mem a hx))

lemma foldl_min_le_init :
    ∀ (xs : List Nat) (init : Nat), xs.foldl Nat.min init ≤ init := by
  intro xs
  induction xs with
  | nil => intro init; exact le_rfl
  | cons a l ih =>
    intro init
    exact le_trans (ih (Nat.min init a)) (Nat.min_le_left init a)

lemma foldl_min_le_mem :
    ∀ (xs : List Nat) (init : Nat) (x : Nat), x ∈ xs →
      xs.foldl Nat.min init ≤ x := by
  intro xs
  induction xs with
  | nil => intro init x hx; cases hx
  | cons a l ih =>
    intro init x hx
    rcases List.mem_cons.1 hx with rfl | hx
    · exact le_trans (foldl_min_le_init l (Nat.min init x)) (Nat.min_le_right init x)
    · exact ih (Nat.min init a) x hx

/-- The timed-notification queue invariant: every pending absolute timestamp
is at or after the current time. -/
def schedInv (s : SchedulerState) : Prop :=
  ∀ t ∈ s.pending, s.timeVal ≤ t

lemma schedStep_mono (s : SchedulerState) (op : SchedulerOp)
    (h : schedInv s) :
    s.timeVal ≤ (schedStep s op).timeVal ∧ schedInv (schedStep s op) := by
  cases op with
  | deltaPhase => exact ⟨le_rfl, h⟩
  | schedule d =>
    refine ⟨le_rfl, fun t ht => ?_⟩
    rcases List.mem_cons.1 ht with rfl | ht
    · exact Nat.le_add_right _ _
    · exact h t ht
  | timeAdvance =>
    cases hp : s.pending with
    | nil => simp only [schedStep, hp]; exact ⟨le_rfl, fun t ht => h t (hp ▸ ht)⟩
    | cons t ts =>
      have hmem : ∀ x ∈ t :: ts, s.timeVal ≤ x := by
        intro x hx; exact h x (hp ▸ hx)
      constructor
      · simp only [schedStep, hp]
        exact foldl_min_ge s.timeVal (t :: ts) t (hmem t (List.mem_cons_self t ts)) hmem
      · intro x hx
        simp only [schedStep, hp] at hx ⊢
        have hx2 := List.mem_filter.1 hx
        exact foldl_min_le_mem (t :: ts) t x hx2.1

lemma schedRun_mono (ops : List SchedulerOp) :
    ∀ (s : SchedulerState), schedInv s →
      s.timeVal ≤ (schedRun s ops).timeVal ∧ schedInv (schedRun s ops) := by
  induction ops with
  | nil => intro s h; exact ⟨le_rfl, h⟩
  | cons op rest ih =>
    intro s h
    have h1 := schedStep_mono s op h
    have h2 := ih (schedStep s op) h1.2
    exact ⟨le_trans h1.1 h2.1, h2.2⟩

lemma le_imp_lexLe_pair (a b : Nat) (h : a ≤ b) :
    lexLe (a / 2 ^ 64, a % 2 ^ 64) (b / 2 ^ 64, b % 2 ^ 64) := by
  rcases Nat.lt_or_ge (a / 2 ^ 64) (b / 2 ^ 64) with hd | hd
  · exact Or.inr (Or.inl hd)
  · have hd2 : a / 2 ^ 64 = b / 2 ^ 64 :=
      le_antisymm (Nat.div_le_div_right h) hd
    have ha := Nat.div_add_mod a (2 ^ 64)
    have hb := Nat.div_add_mod b (2 ^ 64)
    have hm : a % 2 ^ 64 ≤ b % 2 ^ 64 := by omega
    rcases Nat.lt_or_ge (a % 2 ^ 64) (b % 2 ^ 64) with hm2 | hm2
    · exact Or.inr (Or.inr ⟨hd2, hm2⟩)
    · have hme : a % 2 ^ 64 = b % 2 ^ 64 := le_antisymm hm hm2
      exact Or.inl (by rw [Prod.mk.injEq]; exact ⟨hd2, hme⟩)

/-- Claim C2: along every scheduler run satisfying the timed-queue invariant
the `(high, low)` simulation-time pair is non-decreasing in the
lexicographic order with `high` compared first, and
`bsm_trace_file::get_time_stamp` returns true exactly when the current pair
strictly exceeds the previously recorded one in that order. -/
theorem simulation_time_monotone_and_time_stamp :
    (∀ (s : SchedulerState) (ops : List SchedulerOp),
      (∀ t ∈ s.pending, s.timeVal ≤ t) →
      lexLe (timePair s) (timePair (schedRun s ops)))
    ∧ (∀ prev_high prev_low now_high now_low : Nat,
      get_time_stamp prev_high prev_low now_high now_low = true
        ↔ lexLt (prev_high, prev_low) (now_high, now_low)) := by
  constructor
  · intro s ops h
    have hmono := schedRun_mono ops s h
    exact le_imp_lexLe_pair s.timeVal (schedRun s ops).timeVal hmono.1
  · intro ph pl nh nl
    simp only [get_time_stamp, lexLt, Bool.or_eq_true, Bool.and_eq_true,
      decide_eq_true_eq, beq_iff_eq]
    omega

/-- Witness for C2 at a concrete run and a concrete timestamp pair. -/
theorem simulation_time_monotone_witness :
    lexLe (timePair ⟨0, []⟩)
      (timePair (schedRun ⟨0, []⟩ [SchedulerOp.schedule 5, SchedulerOp.timeAdvance]))
    ∧ (get_time_stamp 0 0 0 1 = true ↔ lexLt (0, 0) (0, 1)) :=
  ⟨simulation_time_monotone_and_time_stamp.1 ⟨0, []⟩
      [SchedulerOp.schedule 5, SchedulerOp.timeAdvance] (by simp),
   simulation_time_monotone_and_time_stamp.2 0 0 0 1⟩

/-- Claim C5: an event trace's `changed()` is true exactly when the trigger
stamp differs from the stamp recorded at construction or at the last write,
its `write` emits output and records the stamp only when such a change
exists, and immediately after a write the change signal is clear again. -/
theorem bsm_sc_event_trace_changed_spec :
    (∀ (stamp : Nat) (name : String),
      (bsm_sc_event_trace.init stamp name).changed = false)
    ∧ (∀ t : bsm_sc_event_trace,
      t.changed = true ↔ t.trigger_stamp ≠ t.old_trigger_stamp)
    ∧ (∀ (t : bsm_sc_event_trace) (f : Bool),
      ((t.write f).1).isSome = true → t.changed = true)
    ∧ (∀ (t : bsm_sc_event_trace) (f : Bool),
      t.changed = false → (t.write f).2 = t)
    ∧ (∀ (t : bsm_sc_event_trace) (f : Bool),
      t.changed = true → ((t.write f).2).old_trigger_stamp = t.trigger_stamp)
    ∧ (∀ (t : bsm_sc_event_trace) (f : Bool),
      ((t.write f).2).changed = false) := by
  refine ⟨?_, ?_, ?_, ?_, ?_, ?_⟩
  · intro stamp name
    simp [bsm_sc_event_trace.init, bsm_sc_event_trace.changed]
  · intro t
    simp [bsm_sc_event_trace.changed]
  · intro t f h
    by_cases hc : t.changed
    · exact hc
    · simp [bsm_sc_event_trace.write, hc] at h
  · intro t f h
    simp [bsm_sc_event_trace.write, h]
  · intro t f h
    simp [bsm_sc_event_trace.write, h]
  · intro t f
    by_cases heq : t.trigger_stamp = t.old_trigger_stamp
    · simp [bsm_sc_event_trace.write, bsm_sc_event_trace.changed, heq]
    · simp [bsm_sc_event_trace.write, bsm_sc_event_trace.changed, heq]

/-- Witness for C5 at a concrete event trace. -/
theorem bsm_sc_event_trace_changed_witness :
    ((⟨1, 0, "ev", 0⟩ : bsm_sc_event_trace)).changed = true
    ∧ ((((⟨1, 0, "ev", 0⟩ : bsm_sc_event_trace)).write true).2).old_trigger_stamp = 1 :=
  ⟨(bsm_sc_event_trace_changed_spec.2.1 ⟨1, 0, "ev", 0⟩).mpr (by decide),
   bsm_sc_event_trace_changed_spec.2.2.2.2.1 ⟨1, 0, "ev", 0⟩ true
     ((bsm_sc_event_trace_changed_spec.2.1 ⟨1, 0, "ev", 0⟩).mpr (by decide))⟩

/-- Claim C6: for every kind of registered trace object, `write()` leaves the
stored previous value equal to the value the traced object held at the call,
so a `changed()` made immediately afterwards with the traced object unchanged
returns false. -/
theorem trace_write_resets_changed :
    (∀ (t : bsm_value_trace) (f : Bool),
      ((t.write f).2).old_value = t.object ∧ (((t.write f).2).changed).1 = false)
    ∧ (∀ (t : bsm_T_trace) (f : Bool),
      ((t.write f).2).old_value = t.object ∧ ((t.write f).2).changed = false)
    ∧ (∀ (t : bsm_interface_trace) (f : Bool),
      ((t.write f).2).old_value = t.objectValue
        ∧ (((t.write f).2).changed).1 = false)
    ∧ (∀ (t : bsm_sc_event_trace) (f : Bool),
      ((t.write f).2).old_trigger_stamp = t.trigger_stamp
        ∧ ((t.write f).2).changed = false) := by
  refine ⟨?_, ?_, ?_, ?_⟩
  · intro t f
    exact ⟨rfl, by simp [bsm_value_trace.write, bsm_value_trace.changed]⟩
  · intro t f
    exact ⟨rfl, by simp [bsm_T_trace.write, bsm_T_trace.changed]⟩
  · intro t f
    exact ⟨rfl, by simp [bsm_interface_trace.write, bsm_interface_trace.changed]⟩
  · intro t f
    constructor
    · by_cases hc : t.changed
      · simp [bsm_sc_event_trace.write, hc]
      · have : t.trigger_stamp = t.old_trigger_stamp := by
          simpa [bsm_sc_event_trace.changed] using hc
        simp [bsm_sc_event_trace.write, hc, this]
    · exact bsm_sc_event_trace_changed_spec.2.2.2.2.2 t f

/-- Claim C8: `TRACE_CHANGED_IMPLEMENT` reports a change exactly on a
matching edge for `BSM_TRIGGER_VAL_POS` / `BSM_TRIGGER_VAL_NEG`; a
non-matching or `BSM_TRIGGER_VAL_NONE` difference yields false and the
recorded old value is consumed, so an immediately repeated query stays
false. -/
theorem TRACE_CHANGED_IMPLEMENT_spec (t : bsm_value_trace) :
    (t.bsm_trigger_type = BSM_TRIGGER_VAL_POS →
      ((t.changed).1 = true ↔ t.object ≠ t.old_value ∧ t.object > t.old_value))
    ∧ (t.bsm_trigger_type = BSM_TRIGGER_VAL_NEG →
      ((t.changed).1 = true ↔ t.object ≠ t.old_value ∧ t.object < t.old_value))
    ∧ (((t.object ≠ t.old_value
          ∧ ¬(t.bsm_trigger_type = BSM_TRIGGER_VAL_BOTH
              ∨ (t.bsm_trigger_type = BSM_TRIGGER_VAL_POS ∧ t.object > t.old_value)
              ∨ (t.bsm_trigger_type = BSM_TRIGGER_VAL_NEG ∧ t.object < t.old_value)))
        ∨ t.bsm_trigger_type = BSM_TRIGGER_VAL_NONE) →
      ((t.changed).1 = false ∧ ((t.changed).2).old_value = t.object))
    ∧ ((t.changed).1 = false → (((t.changed).2).changed).1 = false) := by
  refine ⟨?_, ?_, ?_, ?_⟩
  · intro hp
    by_cases hne : t.object ≠ t.old_value
    · by_cases hgt : t.object > t.old_value
      · simp [bsm_value_trace.changed, hne, hp, hgt, BSM_TRIGGER_VAL_POS,
          BSM_TRIGGER_VAL_BOTH, BSM_TRIGGER_VAL_NEG]
      · simp [bsm_value_trace.changed, hne, hp, hgt, BSM_TRIGGER_VAL_POS,
          BSM_TRIGGER_VAL_BOTH, BSM_TRIGGER_VAL_NEG]
    · push_neg at hne
      simp [bsm_value_trace.changed, hne]
  · intro hn
    by_cases hne : t.object ≠ t.old_value
    · by_cases hlt : t.object < t.old_value
      · simp [bsm_value_trace.changed, hne, hn, hlt, BSM_TRIGGER_VAL_POS,
          BSM_TRIGGER_VAL_BOTH, BSM_TRIGGER_VAL_NEG]
      · simp [bsm_value_trace.changed, hne, hn, hlt, BSM_TRIGGER_VAL_POS,
          BSM_TRIGGER_VAL_BOTH, BSM_TRIGGER_VAL_NEG]
    · push_neg at hne
      simp [bsm_value_trace.changed, hne]
  · intro h
    rcases h with ⟨hne, hguard⟩ | hnone
    · simp [bsm_value_trace.changed, hne, hguard, bsm_value_trace.write]
    · by_cases hne : t.object ≠ t.old_value
      · have hguard : ¬(t.bsm_trigger_type = BSM_TRIGGER_VAL_BOTH
            ∨ (t.bsm_trigger_type = BSM_TRIGGER_VAL_POS ∧ t.object > t.old_value)
            ∨ (t.bsm_trigger_type = BSM_TRIGGER_VAL_NEG ∧ t.object < t.old_value)) := by
          simp [hnone, BSM_TRIGGER_VAL_NONE, BSM_TRIGGER_VAL_BOTH,
            BSM_TRIGGER_VAL_POS, BSM_TRIGGER_VAL_NEG]
        simp [bsm_value_trace.changed, hne, hguard, bsm_value_trace.write]
      · push_neg at hne
        simp [bsm_value_trace.changed, hne]
  · intro h
    by_cases hne : t.object ≠ t.old_value
    · by_cases hguard : t.bsm_trigger_type = BSM_TRIGGER_VAL_BOTH
          ∨ (t.bsm_trigger_type = BSM_TRIGGER_VAL_POS ∧ t.object > t.old_value)
          ∨ (t.bsm_trigger_type = BSM_TRIGGER_VAL_NEG ∧ t.object < t.old_value)
      · simp [bsm_value_trace.changed, hne, hguard] at h
      · simp [bsm_value_trace.changed, hne, hguard, bsm_value_trace.write]
    · push_neg at hne
      simp [bsm_value_trace.changed, hne]

/-- Witness for C8 at concrete positive-edge traces. -/
theorem TRACE_CHANGED_IMPLEMENT_witness :
    (((⟨1, 0, BSM_TRIGGER_VAL_POS, 0⟩ : bsm_value_trace)).changed).1 = true
    ∧ ((((⟨0, 1, BSM_TRIGGER_VAL_POS, 0⟩ : bsm_value_trace)).changed).1 = false
        ∧ ((((⟨0, 1, BSM_TRIGGER_VAL_POS, 0⟩ : bsm_value_trace)).changed).2).old_value = 0) :=
  ⟨((TRACE_CHANGED_IMPLEMENT_spec ⟨1, 0, BSM_TRIGGER_VAL_POS, 0⟩).1 rfl).mpr
      (by decide),
   (TRACE_CHANGED_IMPLEMENT_spec ⟨0, 1, BSM_TRIGGER_VAL_POS, 0⟩).2.2.1
      (Or.inl (by decide))⟩

lemma dropWhile_eq_drop_takeWhile_length (p : Char → Bool) :
    ∀ l : List Char, l.dropWhile p = l.drop (l.takeWhile p).length := by
  intro l
  induction l with
  | nil => rfl
  | cons a t ih =>
    by_cases h : p a
    · simp [List.dropWhile_cons, List.takeWhile_cons, h, ih]
    · simp [List.dropWhile_cons, List.takeWhile_cons, h]

lemma cons_dropWhile_self_eq_drop_pred (c : Char) :
    ∀ l : List Char, l.head? = Option.some c →
      c :: l.dropWhile (fun ch => ch = c)
        = l.drop ((l.takeWhile (fun ch => ch = c)).length - 1) := by
  intro l
  induction l with
  | nil => intro h; cases h
  | cons a t ih =>
    intro h
    have hac : a = c := by simpa using h
    subst hac
    by_cases ht : t.head? = Option.some a
    · have hk : 1 ≤ (t.takeWhile (fun ch => ch = a)).length := by
        cases t with
        | nil => cases ht
        | cons b t2 =>
          have hb : b = a := by simpa using ht
          simp [List.takeWhile_cons, hb]
      have ihh := ih ht
      obtain ⟨m, hm⟩ : ∃ m, (t.takeWhile (fun ch => ch = a)).length = m + 1 :=
        ⟨(t.takeWhile (fun ch => ch = a)).length - 1, by omega⟩
      simp only [List.dropWhile_cons, List.takeWhile_cons, decide_True,
        if_true, List.length_cons, hm]
      rw [hm] at ihh
      simpa using ihh
    · have htw : t.takeWhile (fun ch => ch = a) = [] := by
        cases t with
        | nil => rfl
        | cons b t2 =>
          have hb : ¬(b = a) := fun hh => ht (by simp [hh])
          simp [List.takeWhile_cons, hb]
      have hdw : t.dropWhile (fun ch => ch = a) = t := by
        rw [dropWhile_eq_drop_takeWhile_length, htw]; rfl
      simp [List.dropWhile_cons, List.takeWhile_cons, htw, hdw]

/-- Claim C9: `strip_leading_bits` leaves a string untouched when it is
shorter than two characters or does not start with `0`, `x` or `z`;
otherwise, with `c` the first character and `k` the length of the maximal
leading run of `c`, a `0`-run immediately followed by `1` is removed whole
and every other run is collapsed to a single `c`. -/
theorem strip_leading_bits_spec (s : List Char) :
    ((s.length < 2 ∨ (∀ c, s.head? = Option.some c → c ≠ '0' ∧ c ≠ 'x' ∧ c ≠ 'z')) →
      strip_leading_bits s = s)
    ∧ (∀ c, s.head? = Option.some c → (c = '0' ∨ c = 'x' ∨ c = 'z') →
      2 ≤ s.length →
      ((c = '0' ∧ s[(s.takeWhile (fun ch => ch = c)).length]? = Option.some '1') →
        strip_leading_bits s = s.drop (s.takeWhile (fun ch => ch = c)).length)
      ∧ (¬(c = '0' ∧ s[(s.takeWhile (fun ch => ch = c)).length]? = Option.some '1') →
        strip_leading_bits s
          = s.drop ((s.takeWhile (fun ch => ch = c)).length - 1))) := by
  constructor
  · intro h
    rcases h with h | h
    · simp only [strip_leading_bits]
      rw [if_pos (Or.inl h)]
    · cases s with
      | nil => rfl
      | cons a t =>
        have ha := h a rfl
        simp only [strip_leading_bits]
        rw [if_pos (Or.inr ⟨by simpa using ha.2.2, by simpa using ha.2.1,
          by simpa using ha.1⟩)]
  · intro c hc hset hlen
    cases s with
    | nil => cases hc
    | cons a t =>
      have hac : a = c := by simpa using hc
      subst hac
      have hcond : ¬((a :: t).length < 2
          ∨ ((a :: t).head? ≠ Option.some 'z' ∧ (a :: t).head? ≠ Option.some 'x'
              ∧ (a :: t).head? ≠ Option.some '0')) := by
        intro hor
        rcases hor with hl | ⟨hz, hx, h0⟩
        · omega
        · rcases hset with rfl | rfl | rfl
          · exact h0 rfl
          · exact hx rfl
          · exact hz rfl
      have hdw : (a :: t).dropWhile (fun ch => ch = a)
          = (a :: t).drop (((a :: t).takeWhile (fun ch => ch = a)).length) :=
        dropWhile_eq_drop_takeWhile_length _ _
      have hcons : a :: (a :: t).dropWhile (fun ch => ch = a)
          = (a :: t).drop (((a :: t).takeWhile (fun ch => ch = a)).length - 1) :=
        cons_dropWhile_self_eq_drop_pred a (a :: t) rfl
      have hhd : ((a :: t).dropWhile (fun ch => ch = a)).head?
          = (a :: t)[((a :: t).takeWhile (fun ch => ch = a)).length]? := by
        rw [hdw, List.head?_drop]
      constructor
      · intro hcl
        simp only [strip_leading_bits]
        rw [if_neg hcond]
        rw [if_pos ⟨hcl.1, by rw [hhd]; exact hcl.2⟩]
        exact hdw
      · intro hcl
        simp only [strip_leading_bits]
        rw [if_neg hcond]
        rw [if_neg (fun hcnd => hcl ⟨hcnd.1, by rw [← hhd]; exact hcnd.2⟩)]
        exact hcons

/-- Witness for C9 at the concrete strings of the source comment. -/
theorem strip_leading_bits_witness :
    strip_leading_bits "b".data = "b".data
    ∧ strip_leading_bits "0000010101".data = "10101".data
    ∧ strip_leading_bits "000z100".data = "0z100".data :=
  ⟨(strip_leading_bits_spec "b".data).1 (Or.inl (by decide)),
   by
    have := ((strip_leading_bits_spec "0000010101".data).2 '0' rfl
      (Or.inl rfl) (by decide)).1 (by decide)
    simpa using this,
   by
    have := ((strip_leading_bits_spec "000z100".data).2 '0' rfl
      (Or.inl rfl) (by decide)).2 (by decide)
    simpa using this⟩

lemma char_ofNat_letter_range :
    ∀ d : Fin 26, 'a' ≤ Char.ofNat (97 + d.val) ∧ Char.ofNat (97 + d.val) ≤ 'z' := by
  decide

lemma char_ofNat_letter_inj :
    ∀ d e : Fin 26, Char.ofNat (97 + d.val) = Char.ofNat (97 + e.val) → d = e := by
  decide

lemma digits_reconstruct (n : Nat) (hn : n < 17576) :
    676 * (n / 26 / 26 % 26) + 26 * (n / 26 % 26) + n % 26 = n := by
  have h1 := Nat.div_add_mod n 26
  have h2 := Nat.div_add_mod (n / 26) 26
  have h3 : n / 26 < 676 := Nat.div_lt_of_lt_mul (by omega)
  have h4 : n / 26 / 26 < 26 := Nat.div_lt_of_lt_mul (by omega)
  have h5 : n / 26 / 26 % 26 = n / 26 / 26 := Nat.mod_eq_of_lt h4
  omega

/-- For a name index below `2^31` the `int` conversion is the identity and
the whole division chain is the plain base-26 computation on naturals. -/
lemma obtain_name_eval_lt (n : Nat) (hn : n < 2 ^ 31) :
    (obtain_name n).1 = String.mk
      [Char.ofNat (97 + n / 26 / 26 % 26), Char.ofNat (97 + n / 26 % 26),
       Char.ofNat (97 + n / 26 / 26 % 26), Char.ofNat (97 + n / 26 % 26),
       Char.ofNat (97 + n % 26)] := by
  have hidx : n % 2 ^ 32 = n := Nat.mod_eq_of_lt (by omega)
  have ht : toInt32 n = (n : Int) := by
    unfold toInt32
    rw [hidx, if_pos hn]
  have h1 : (toInt32 n).tdiv 26 = ((n / 26 : Nat) : Int) := by
    rw [ht]
    have h := Int.ofNat_tdiv n 26
    simpa using h.symm
  have h2 : ((toInt32 n).tdiv 26).tmod 26 = ((n / 26 % 26 : Nat) : Int) := by
    rw [h1]
    have h := Int.ofNat_tmod (n / 26) 26
    simpa using h.symm
  have h3 : ((toInt32 n).tdiv 26).tdiv 26 = ((n / 26 / 26 : Nat) : Int) := by
    rw [h1]
    have h := Int.ofNat_tdiv (n / 26) 26
    simpa using h.symm
  have h4 : (((toInt32 n).tdiv 26).tdiv 26).tmod 26
      = ((n / 26 / 26 % 26 : Nat) : Int) := by
    rw [h3]
    have h := Int.ofNat_tmod (n / 26 / 26) 26
    simpa using h.symm
  have htn : ∀ d : Nat, ((97 : Int) + ((d : Nat) : Int)).toNat = 97 + d := by
    intro d
    omega
  simp only [obtain_name, hidx, h2, h4, htn]

/-- Claim C10 (amended): every `obtain_name` call returns a five-character
name and advances the 32-bit name index by one modulo `2^32` (by exactly one
whenever the incremented index stays below `2^32`); for every index below
`2^31` the characters are drawn from `a`..`z`; and the names of the first
26³ = 17576 calls on a freshly constructed trace file are pairwise
distinct. -/
theorem obtain_name_spec :
    (∀ n : Nat,
      ((obtain_name n).1).length = 5
      ∧ (obtain_name n).2 = (n + 1) % 2 ^ 32
      ∧ (n + 1 < 2 ^ 32 → (obtain_name n).2 = n + 1))
    ∧ (∀ n : Nat, n < 2 ^ 31 →
      ∀ ch ∈ ((obtain_name n).1).data, 'a' ≤ ch ∧ ch ≤ 'z')
    ∧ (∀ n m : Nat, n < 17576 → m < 17576 →
      (obtain_name n).1 = (obtain_name m).1 → n = m) := by
  have hr : ∀ x : Nat, 'a' ≤ Char.ofNat (97 + x % 26) ∧ Char.ofNat (97 + x % 26) ≤ 'z' :=
    fun x => char_ofNat_letter_range ⟨x % 26, Nat.mod_lt x (by omega)⟩
  have hinj : ∀ x y : Nat, x < 26 → y < 26 →
      Char.ofNat (97 + x) = Char.ofNat (97 + y) → x = y := by
    intro x y hx hy hchar
    have h := char_ofNat_letter_inj ⟨x, hx⟩ ⟨y, hy⟩ hchar
    have h2 := congrArg Fin.val h
    simpa using h2
  refine ⟨?_, ?_, ?_⟩
  · intro n
    have hsnd : (obtain_name n).2 = (n % 2 ^ 32 + 1) % 2 ^ 32 := rfl
    refine ⟨rfl, by omega, fun h => by omega⟩
  · intro n hn ch hch
    rw [obtain_name_eval_lt n hn] at hch
    simp only [List.mem_cons, List.not_mem_nil, or_false] at hch
    rcases hch with rfl | rfl | rfl | rfl | rfl
    · exact hr _
    · exact hr _
    · exact hr _
    · exact hr _
    · exact hr _
  · intro n m hn hm heq
    rw [obtain_name_eval_lt n (by omega), obtain_name_eval_lt m (by omega)] at heq
    have hdata := congrArg String.data heq
    simp only [List.cons.injEq, and_true] at hdata
    obtain ⟨e2, e3, e4, e5, e6⟩ := hdata
    have g2 := hinj _ _ (Nat.mod_lt _ (by omega)) (Nat.mod_lt _ (by omega)) e2
    have g1 := hinj _ _ (Nat.mod_lt _ (by omega)) (Nat.mod_lt _ (by omega)) e3
    have g0 := hinj _ _ (Nat.mod_lt _ (by omega)) (Nat.mod_lt _ (by omega)) e6
    have rn := digits_reconstruct n hn
    have rm := digits_reconstruct m hm
    omega

/-- Counterexample to claim C10 as stated: at name index `2^31` the signed
`int` division chain goes negative and produces characters below `a`
(the name is `syOIy`), and at index `2^32 - 1` the unsigned increment wraps
to `0` instead of advancing by one. -/
theorem obtain_name_wraps_counterexample :
    (∃ ch ∈ ((obtain_name (2 ^ 31)).1).data, ¬('a' ≤ ch ∧ ch ≤ 'z'))
    ∧ (obtain_name (2 ^ 32 - 1)).2 ≠ 2 ^ 32 - 1 + 1 := by
  decide

/-- Witness for the amended C10 at concrete indices. -/
theorem obtain_name_witness :
    (obtain_name 0).2 = 0 + 1 ∧ ('a' ≤ 'a' ∧ 'a' ≤ 'z') ∧ (0 : Nat) = 0 :=
  ⟨((obtain_name_spec.1 0).2.2) (by decide),
   obtain_name_spec.2.1 0 (by decide) 'a' (by decide),
   obtain_name_spec.2.2 0 0 (by decide) (by decide) rfl⟩

lemma TraceObj_write_trace_type (x : TraceObj) (f : Bool) :
    ((x.write f).2).get_trace_type = x.get_trace_type := by
  cases x with
  | valT t => rfl
  | evT t =>
    simp only [TraceObj.write, TraceObj.get_trace_type, bsm_sc_event_trace.write]
    split <;> rfl

lemma TraceObj_changed_trace_type (x : TraceObj) :
    ((x.changed).2).get_trace_type = x.get_trace_type := by
  cases x with
  | valT t =>
    simp only [TraceObj.changed, TraceObj.get_trace_type, bsm_value_trace.changed,
      bsm_value_trace.write]
    split
    · split <;> rfl
    · rfl
  | evT t => rfl

lemma cycleTracesAux_stats (enable : Bool) :
    ∀ (fuel : Nat) (ts : List TraceObj) (stats : List TStat),
      cycleTracesAux enable fuel ts = Option.some stats →
      ∀ prev : Option TStat,
        stats.length = ts.length
        ∧ (∀ s ∈ stats, s.changedCalls ≤ 1)
        ∧ allWritesJustified prev stats := by
  intro fuel
  induction fuel with
  | zero =>
    intro ts stats h prev
    cases ts with
    | nil =>
      simp only [cycleTracesAux, Option.some.injEq] at h
      subst h
      exact ⟨rfl, by simp, trivial⟩
    | cons t rest => simp [cycleTracesAux] at h
  | succ fuel ih =>
    intro ts stats h prev
    cases ts with
    | nil =>
      simp only [cycleTracesAux, Option.some.injEq] at h
      subst h
      exact ⟨rfl, by simp, trivial⟩
    | cons t rest =>
      simp only [cycleTracesAux] at h
      by_cases hc : (t.changed).1 = true
      · rw [if_pos hc] at h
        by_cases hen : enable = true
        · rw [if_neg (by simp [hen])] at h
          by_cases hty : ((t.changed).2).get_trace_type = BSM_TRACE_ORIG
          · rw [if_pos hty] at h
            cases hrec : cycleTracesAux enable fuel rest with
            | none => simp [hrec] at h
            | some l =>
              rw [hrec, Option.map_some'] at h
              have hst := Option.some.inj h
              subst hst
              have hihl := ih rest l hrec
              refine ⟨by simp [(hihl Option.none).1], ?_, ?_⟩
              · intro s hs
                rcases List.mem_cons.1 hs with rfl | hs
                · exact le_rfl
                · exact (hihl Option.none).2.1 s hs
              · refine ⟨fun _ => Or.inl ⟨rfl, ?_⟩, (hihl _).2.2⟩
                rw [TraceObj_write_trace_type]
                exact hty
          · rw [if_neg hty] at h
            cases rest with
            | nil => simp at h
            | cons u rest2 =>
              dsimp only at h
              cases hrec : cycleTracesAux enable fuel rest2 with
              | none => simp [hrec] at h
              | some l =>
                rw [hrec, Option.map_some'] at h
                have hst := Option.some.inj h
                subst hst
                have hihl := ih rest2 l hrec
                refine ⟨by simp [(hihl Option.none).1], ?_, ?_⟩
                · intro s hs
                  rcases List.mem_cons.1 hs with rfl | hs
                  · exact le_rfl
                  · rcases List.mem_cons.1 hs with rfl | hs
                    · exact Nat.zero_le 1
                    · exact (hihl Option.none).2.1 s hs
                · refine ⟨fun hw => absurd hw (by simp), ?_, (hihl _).2.2⟩
                  refine fun _ => Or.inr ⟨_, rfl, rfl, ?_⟩
                  rw [TraceObj_write_trace_type]
                  exact hty
        · have hen2 : enable = false := by
            cases enable
            · rfl
            · exact absurd rfl hen
          rw [if_pos (by simp [hen2])] at h
          cases hrec : cycleTracesAux enable fuel rest with
          | none => simp [hrec] at h
          | some l =>
            rw [hrec, Option.map_some'] at h
            have hst := Option.some.inj h
            subst hst
            have hihl := ih rest l hrec
            refine ⟨by simp [(hihl Option.none).1], ?_, ?_⟩
            · intro s hs
              rcases List.mem_cons.1 hs with rfl | hs
              · exact le_rfl
              · exact (hihl Option.none).2.1 s hs
            · exact ⟨fun hw => absurd hw (by simp), (hihl _).2.2⟩
      · rw [if_neg hc] at h
        cases hrec : cycleTracesAux enable fuel rest with
        | none => simp [hrec] at h
        | some l =>
          rw [hrec, Option.map_some'] at h
          have hst := Option.some.inj h
          subst hst
          have hihl := ih rest l hrec
          refine ⟨by simp [(hihl Option.none).1], ?_, ?_⟩
          · intro s hs
            rcases List.mem_cons.1 hs with rfl | hs
            · exact le_rfl
            · exact (hihl Option.none).2.1 s hs
          · exact ⟨fun hw => absurd hw (by simp), (hihl _).2.2⟩

/-- Counterexample to claim C7 as stated: when a valid-signal trace
(`BSM_TRACE_VAL`) reports a change, the sampling loop writes the *next*
trace to the trace file although that trace's own `changed()` was never
evaluated in the invocation (its `changedResult` is `none`, yet `wroteFile`
is true). -/
theorem cycle_writes_follower_without_changed :
    (cycle false false false true true true
        [TraceObj.valT ⟨1, 0, BSM_TRIGGER_VAL_BOTH, BSM_TRACE_VAL⟩,
         TraceObj.valT ⟨0, 0, BSM_TRIGGER_VAL_BOTH, BSM_TRACE_ORIG⟩]).map
      (fun l => l.map (fun s => (s.wroteFile, s.changedResult)))
      = Option.some [(false, Option.some true), (true, Option.none)] := by
  rfl

/-- Claim C7 (amended): an invocation of `cycle` that performs sampling
evaluates each registered trace's `changed()` at most once, and a trace's
value is written to the trace file only if its own `changed()` returned true
during that invocation and it is an ordinary trace, or it immediately
follows a valid-signal trace (trace type other than `BSM_TRACE_ORIG`) whose
`changed()` returned true in that invocation. -/
theorem cycle_sampling_spec
    (tdc delta init adv dz enable : Bool) (traces : List TraceObj)
    (stats : List TStat)
    (h : cycle tdc delta init adv dz enable traces = Option.some stats) :
    stats.length = traces.length
    ∧ (∀ s ∈ stats, s.changedCalls ≤ 1)
    ∧ allWritesJustified Option.none stats := by
  have hs : cycleTraces enable traces = Option.some stats := by
    unfold cycle at h
    split_ifs at h
    exact h
  exact cycleTracesAux_stats enable traces.length traces stats hs Option.none

/-- Witness for the amended C7 at a concrete sampling invocation. -/
theorem cycle_sampling_witness :
    ([⟨TraceObj.valT ⟨1, 1, BSM_TRIGGER_VAL_BOTH, BSM_TRACE_ORIG⟩,
        true, 1, Option.some true⟩] : List TStat).length
      = ([TraceObj.valT ⟨1, 0, BSM_TRIGGER_VAL_BOTH, BSM_TRACE_ORIG⟩] :
          List TraceObj).length
    ∧ (∀ s ∈ ([⟨TraceObj.valT ⟨1, 1, BSM_TRIGGER_VAL_BOTH, BSM_TRACE_ORIG⟩,
        true, 1, Option.some true⟩] : List TStat), s.changedCalls ≤ 1)
    ∧ allWritesJustified Option.none
        [⟨TraceObj.valT ⟨1, 1, BSM_TRIGGER_VAL_BOTH, BSM_TRACE_ORIG⟩,
          true, 1, Option.some true⟩] :=
  cycle_sampling_spec false false false true true true
    [TraceObj.valT ⟨1, 0, BSM_TRIGGER_VAL_BOTH, BSM_TRACE_ORIG⟩]
    [⟨TraceObj.valT ⟨1, 1, BSM_TRIGGER_VAL_BOTH, BSM_TRACE_ORIG⟩,
      true, 1, Option.some true⟩] rfl

end SystemC
